import Mathlib

/-!
Verification of the report bucketing / aggregation engine of the personal
finance tracker (`src/server/app.js`).

The server manipulates local calendar dates through JavaScript `Date`
objects whose time component is always stripped (`new Date(y, m, d)`),
so a date value is modelled as its proleptic-Gregorian epoch-day number
(an `Int`, day 0 = 1970-01-01).  The conversions between epoch days and
`(year, month, day)` triples — the JS `Date` constructor, `getFullYear`,
`getMonth`, `getDate`, `getDay` — are implemented below with the standard
era/year-of-era decomposition of the Gregorian calendar and proved to be
mutually inverse, so every date computation of the server is reproduced
exactly.

JavaScript strings are modelled as `List Char`.
-/

/-! ## Definitions: the embedding of the server code -/

/-- Model of a JavaScript string: a list of characters. -/
abbrev Str := List Char

/-- Leap-year test of the proleptic Gregorian calendar. -/
def isLeap (y : Int) : Bool :=
  (y % 4 == 0 && y % 100 != 0) || (y % 400 == 0)

/-- Number of days in month `m` (1–12) of year `y`. -/
def daysInMonth (y m : Int) : Int :=
  if m = 2 then (if isLeap y then 29 else 28)
  else if m = 4 ∨ m = 6 ∨ m = 9 ∨ m = 11 then 30 else 31

/-- First day (day-of-era offset) of year-of-era `u` within a 400-year era:
365 plain days per year plus the accumulated leap days. -/
def yoeStart (u : Int) : Int := 365 * u + u / 4 - u / 100

/-- Year-of-era containing day-of-era `doe`: a first guess `doe / 366`
corrected upward by one when the next year already started. -/
def yoeOf (doe : Int) : Int :=
  if doe / 366 ≤ 398 ∧ yoeStart (doe / 366 + 1) ≤ doe then doe / 366 + 1 else doe / 366

/-- Day-of-March-based-year on which month-pattern `mp` (0 = March … 11 =
February) starts: the months March … January repeat a 153-day 5-month
pattern 31,30,31,30,31. -/
def mpStart (mp : Int) : Int := (153 * mp + 2) / 5

/-- Month pattern index containing day-of-year `doy`. -/
def mpOf (doy : Int) : Int := (5 * doy + 2) / 153

/-- Day-of-March-based-year of the first of calendar month `m` (1–12). -/
def monthDoy (m : Int) : Int := mpStart ((m + 9) % 12)

/-- March-based year adjustment: January and February count into the
previous year so that the leap day closes a year. -/
def civilYearAdj (y m : Int) : Int := if m ≤ 2 then y - 1 else y

/-- Epoch-day number of the calendar date `(y, m, d)`.  `m` must be a
calendar month 1–12; `d` may be arbitrary (day 0 is the last day of the
previous month, matching the JS `Date` constructor's day overflow). -/
def civilToDays (y m d : Int) : Int :=
  146097 * (civilYearAdj y m / 400) + yoeStart (civilYearAdj y m % 400)
    + monthDoy m + d - 1 - 719468

/-- Era of an epoch day (era 0 starts 0000-03-01). -/
def dtcEra (t : Int) : Int := (t + 719468) / 146097

/-- Day-of-era of an epoch day. -/
def dtcDoe (t : Int) : Int := (t + 719468) % 146097

/-- Year-of-era of an epoch day. -/
def dtcYoe (t : Int) : Int := yoeOf (dtcDoe t)

/-- Day-of-March-based-year of an epoch day. -/
def dtcDoy (t : Int) : Int := dtcDoe t - yoeStart (dtcYoe t)

/-- Month-pattern index of an epoch day. -/
def dtcMp (t : Int) : Int := mpOf (dtcDoy t)

/-- Calendar month (1–12) of an epoch day. -/
def dtcMonth (t : Int) : Int := if dtcMp t < 10 then dtcMp t + 3 else dtcMp t - 9

/-- Day of month (1–31) of an epoch day. -/
def dtcDay (t : Int) : Int := dtcDoy t - mpStart (dtcMp t) + 1

/-- Calendar year of an epoch day. -/
def dtcYear (t : Int) : Int :=
  dtcYoe t + 400 * dtcEra t + (if dtcMonth t ≤ 2 then 1 else 0)

/-- Calendar date `(year, month, day)` of an epoch day. -/
def daysToCivil (t : Int) : Int × Int × Int := (dtcYear t, dtcMonth t, dtcDay t)

/-- JS `date.getFullYear()`. -/
def jsGetFullYear (t : Int) : Int := dtcYear t

/-- JS `date.getMonth()` — 0-based month. -/
def jsGetMonth (t : Int) : Int := dtcMonth t - 1

/-- JS `date.getDate()` — day of month. -/
def jsGetDate (t : Int) : Int := dtcDay t

/-- JS `date.getDay()` — weekday, Sunday = 0.  Epoch day 0 (1970-01-01)
was a Thursday, hence the offset 4. -/
def jsGetDay (t : Int) : Int := (t + 4) % 7

/-- JS `new Date(y, m, d)` with 0-based month `m`: month over/underflow
moves across years, day over/underflow moves across months (day 0 is the
last day of the previous month). -/
def jsMkDate (y m d : Int) : Int :=
  civilToDays ((12 * y + m) / 12) ((12 * y + m) % 12 + 1) d

/-- Numeric value of a decimal digit character. -/
def digitVal (c : Char) : Nat := c.toNat - 48

/-- Decimal digit characters of `n`, most significant first; the first
argument is recursion fuel (any fuel `≥ n` gives the digits of `n`). -/
def natToCharsAux : Nat → Nat → Str
  | 0, _ => []
  | fuel + 1, n => if n = 0 then [] else natToCharsAux fuel (n / 10) ++ [Nat.digitChar (n % 10)]

/-- JS `String(n)` for a natural number. -/
def natToChars (n : Nat) : Str := if n = 0 then ['0'] else natToCharsAux n n

/-- JS `String(z)` for an integer: a `-` sign followed by the digits. -/
def intToChars (z : Int) : Str :=
  if z < 0 then '-' :: natToChars z.natAbs else natToChars z.toNat

/-- JS `s.padStart(2, '0')`. -/
def padStart2 (s : Str) : Str :=
  if s.length < 2 then List.replicate (2 - s.length) '0' ++ s else s

/-- JS `String(z).padStart(2, '0')`. -/
def pad2 (z : Int) : Str := padStart2 (intToChars z)

/-- Numeric value of a digit string, most significant first. -/
def charsToNat (s : Str) : Nat := s.foldl (fun a c => a * 10 + digitVal c) 0

/-- Inverse of `intToChars`: strip an optional leading minus sign. -/
def intCharsToInt : Str → Int
  | [] => 0
  | c :: rest => if c = '-' then -(charsToNat rest : Int) else (charsToNat (c :: rest) : Int)

/-- JS `value.split('-')` on the character list. -/
def splitDash : Str → List Str
  | [] => [[]]
  | c :: rest =>
    if c = '-' then [] :: splitDash rest
    else
      match splitDash rest with
      | [] => [[c]]
      | s :: ss => (c :: s) :: ss

/-- JS `Number(s)` restricted to the digit strings that occur in date
parts: all-digit strings (including the empty string, which JS coerces
to 0) give a number, anything else gives `none` (JS `NaN`). -/
def parseNat (s : Str) : Option Nat :=
  if s.all Char.isDigit then some (charsToNat s) else none

/-- Model of `parseISODate` in `app.js`: split on `-`, coerce the first three
parts to numbers, and build `new Date(year, month - 1, day)`.  A part
that is not a number makes the whole date invalid (`none`, JS's
`Invalid Date`). -/
def parseISODate (s : Str) : Option Int :=
  match (splitDash s).map parseNat with
  | y? :: m? :: d? :: _ =>
    match y?, m?, d? with
    | some y, some m, some d => some (jsMkDate y ((m : Int) - 1) d)
    | _, _, _ => none
  | _ => none

/-- Model of `formatDate` in `app.js`: `${year}-${month2}-${day2}`. -/
def formatDate (t : Int) : Str :=
  intToChars (jsGetFullYear t) ++ '-' :: (pad2 (jsGetMonth t + 1) ++ '-' :: pad2 (jsGetDate t))

/-- Model of `startOfWeek` in `app.js`: remap the weekday so Monday = 0 …
Sunday = 6, then step back to the Monday. -/
def startOfWeek (t : Int) : Int := t - (jsGetDay t + 6) % 7

/-- Model of `addDays` in `app.js`. -/
def addDays (t : Int) (days : Int) : Int := t + days

/-- The `months` array of `app.js`. -/
def months : List Str :=
  ["Jan", "Feb", "Mar", "Apr", "May", "Jun",
   "Jul", "Aug", "Sep", "Oct", "Nov", "Dec"].map String.toList

/-- A transaction row as fetched for the report:
`SELECT date, type, amount FROM transactions ...`.  Monetary amounts are
modelled as rationals (exact arithmetic; the JS doubles are display-only
aggregation per the design notes). -/
structure TxRow where
  date : Str
  type : Str
  amount : ℚ
deriving DecidableEq

/-- A report bucket: `{ key, label, income, expense }`. -/
structure Bucket where
  key : Str
  label : Str
  income : ℚ
  expense : ℚ
deriving DecidableEq

/-- Output of the bucket-planning phase of the `/api/report` handler. -/
structure PlanOut where
  buckets : List Bucket
  rangeStart : Int
  rangeEnd : Int
deriving DecidableEq

/-- The `/api/report` response shape; `stop` models the JSON field `end`
(a Lean keyword). -/
structure Report where
  period : Str
  count : Int
  start : Str
  stop : Str
  buckets : List Bucket
deriving DecidableEq

/-- Model of `req.query.period === 'week' ? 'week' : 'month'`. -/
def resolvePeriod (p : Option Str) : Str :=
  if p = some ("week".toList) then "week".toList else "month".toList

/-- The numeric value JS obtains from `Number(req.query.count)`: `none`
stands for an absent or non-numeric parameter (`NaN`). -/
def jsCountDefault (c : Option Int) : Int :=
  match c with
  | none => 6
  | some v => if v = 0 then 6 else v

/-- Model of `Math.min(Math.max(Number(req.query.count) || 6, 2), 24)`.  Note that
`0 || 6` is `6` in JS: a zero count falls back to the default. -/
def resolveCount (c : Option Int) : Int :=
  min (max (jsCountDefault c) 2) 24

/-- Month-mode: `new Date(today.getFullYear(), today.getMonth() - (count - 1), 1)`. -/
def monthModeStart (count today : Int) : Int :=
  jsMkDate (jsGetFullYear today) (jsGetMonth today - (count - 1)) 1

/-- Month-mode: `new Date(today.getFullYear(), today.getMonth(), 1)`. -/
def monthModeLastBucket (today : Int) : Int :=
  jsMkDate (jsGetFullYear today) (jsGetMonth today) 1

/-- Month-mode: `new Date(lastBucket.getFullYear(), lastBucket.getMonth() + 1, 0)`. -/
def monthModeRangeEnd (today : Int) : Int :=
  jsMkDate (jsGetFullYear (monthModeLastBucket today))
    (jsGetMonth (monthModeLastBucket today) + 1) 0

/-- Month-mode loop: `new Date(start.getFullYear(), start.getMonth() + i, 1)`. -/
def planMonthCurrent (s : Int) (i : Nat) : Int :=
  jsMkDate (jsGetFullYear s) (jsGetMonth s + (i : Int)) 1

/-- Month bucket key: `${current.getFullYear()}-${String(current.getMonth() + 1).padStart(2, '0')}`. -/
def monthBucketKey (t : Int) : Str :=
  intToChars (jsGetFullYear t) ++ '-' :: pad2 (jsGetMonth t + 1)

/-- Month bucket label: `${months[current.getMonth()]} ${String(current.getFullYear()).slice(2)}`. -/
def monthBucketLabel (t : Int) : Str :=
  months.getD (jsGetMonth t).toNat [] ++ ' ' :: (intToChars (jsGetFullYear t)).drop 2

/-- Week bucket label: `${months[current.getMonth()]} ${String(current.getDate()).padStart(2, '0')}`. -/
def weekBucketLabel (t : Int) : Str :=
  months.getD (jsGetMonth t).toNat [] ++ ' ' :: pad2 (jsGetDate t)

/-- The month-mode bucket list of the `/api/report` handler. -/
def planBucketsMonth (count today : Int) : List Bucket :=
  (List.range count.toNat).map fun i =>
    { key := monthBucketKey (planMonthCurrent (monthModeStart count today) i),
      label := monthBucketLabel (planMonthCurrent (monthModeStart count today) i),
      income := 0, expense := 0 }

/-- Week-mode: `addDays(startOfWeek(today), -(count - 1) * 7)`. -/
def weekModeStart (count today : Int) : Int :=
  addDays (startOfWeek today) (-(count - 1) * 7)

/-- Week-mode loop: `addDays(start, i * 7)`. -/
def planWeekCurrent (s : Int) (i : Nat) : Int := addDays s ((i : Int) * 7)

/-- The week-mode bucket list of the `/api/report` handler. -/
def planBucketsWeek (count today : Int) : List Bucket :=
  (List.range count.toNat).map fun i =>
    { key := formatDate (planWeekCurrent (weekModeStart count today) i),
      label := weekBucketLabel (planWeekCurrent (weekModeStart count today) i),
      income := 0, expense := 0 }

/-- The bucket-planning phase of `/api/report`: empty ordered buckets plus
the fetch range `[rangeStart, rangeEnd]`. -/
def plan (period : Str) (count : Int) (today : Int) : PlanOut :=
  if period = "month".toList then
    { buckets := planBucketsMonth count today,
      rangeStart := monthModeStart count today,
      rangeEnd := monthModeRangeEnd today }
  else
    { buckets := planBucketsWeek count today,
      rangeStart := weekModeStart count today,
      rangeEnd := addDays (startOfWeek today) 6 }

/-- Bucket key recomputed for a fetched row: month mode takes
`row.date.slice(0, 7)`; week mode parses the date and formats its Monday.
An unparseable date yields JS's `Invalid Date`, which `formatDate` turns
into the string `NaN-NaN-NaN`. -/
def rowKey (period : Str) (date : Str) : Str :=
  if period = "month".toList then date.take 7
  else
    match parseISODate date with
    | some t => formatDate (startOfWeek t)
    | none => "NaN-NaN-NaN".toList

/-- Accumulation into a bucket: income rows add to the income sum, all
other rows add to the expense sum. -/
def addRowToBucket (r : TxRow) (b : Bucket) : Bucket :=
  if r.type = "income".toList then { b with income := b.income + r.amount }
  else { b with expense := b.expense + r.amount }

/-- Update the last bucket carrying key `k` (the `bucketMap` built with
`new Map` keeps the last entry for a duplicated key; planner keys are in
fact distinct).  With no matching bucket the row is dropped. -/
def updateLastMatch (k : Str) (f : Bucket → Bucket) : List Bucket → List Bucket
  | [] => []
  | b :: bs =>
    if bs.any fun x => decide (x.key = k) then b :: updateLastMatch k f bs
    else if b.key = k then f b :: bs
    else b :: updateLastMatch k f bs

/-- The row fold of the `/api/report` handler. -/
def aggregate (period : Str) (bs : List Bucket) (rows : List TxRow) : List Bucket :=
  rows.foldl (fun acc r => updateLastMatch (rowKey period r.date) (addRowToBucket r) acc) bs

/-- The full `/api/report` computation after authentication: resolve the
query, plan the buckets, fold the fetched rows, and serialize.  The
fetched rows are a parameter (the storage collaborator boundary). -/
def computeReport (periodQ : Option Str) (countQ : Option Int) (today : Int)
    (rows : List TxRow) : Report :=
  { period := resolvePeriod periodQ,
    count := resolveCount countQ,
    start := formatDate (plan (resolvePeriod periodQ) (resolveCount countQ) today).rangeStart,
    stop := formatDate (plan (resolvePeriod periodQ) (resolveCount countQ) today).rangeEnd,
    buckets := aggregate (resolvePeriod periodQ)
      (plan (resolvePeriod periodQ) (resolveCount countQ) today).buckets rows }

/-- A stored transaction row with its owner. -/
structure Transaction where
  userId : Int
  type : Str
  amount : ℚ
  date : Str
deriving DecidableEq

/-- SQLite TEXT comparison (`date >= ?` / `date <= ?`): byte-wise
lexicographic order, i.e. code-point order on characters. -/
def lexLe : Str → Str → Bool
  | [], _ => true
  | _ :: _, [] => false
  | a :: as, b :: bs =>
    if a.toNat < b.toNat then true
    else if b.toNat < a.toNat then false
    else lexLe as bs

/-- Model of `isValidDate` in `app.js`: the regex `^\d{4}-\d{2}-\d{2}$`. -/
def isValidDate : Str → Bool
  | [y1, y2, y3, y4, h1, m1, m2, h2, d1, d2] =>
    y1.isDigit && y2.isDigit && y3.isDigit && y4.isDigit && h1 == '-' &&
    m1.isDigit && m2.isDigit && h2 == '-' && d1.isDigit && d2.isDigit
  | _ => false

/-- The WHERE clause built by `buildRangeFilter`: owner always, each date
bound only when supplied and valid (a malformed bound leaves that side
unbounded). -/
def rangeFilterPred (uid : Int) (s e : Option Str) (tx : Transaction) : Bool :=
  (tx.userId == uid) &&
  (match s with
   | some v => if isValidDate v then lexLe v tx.date else true
   | none => true) &&
  (match e with
   | some v => if isValidDate v then lexLe tx.date v else true
   | none => true)

/-- Model of `COALESCE(SUM(CASE WHEN <kind> THEN amount END), 0)` over the rows
selected by the WHERE clause. -/
def sqlSumWhere (w : Transaction → Bool) (kind : Transaction → Bool)
    (txs : List Transaction) : ℚ :=
  txs.foldl (fun acc tx => if w tx && kind tx then acc + tx.amount else acc) 0

/-- The `/api/summary` response. -/
structure SummaryOut where
  income : ℚ
  expense : ℚ
  balance : ℚ
deriving DecidableEq

/-- The `/api/summary` computation: conditional sums over the owner's
rows in the optional range, and `balance = income - expense`. -/
def summarize (txs : List Transaction) (uid : Int) (s e : Option Str) : SummaryOut :=
  { income := sqlSumWhere (rangeFilterPred uid s e) (fun tx => tx.type = "income".toList) txs,
    expense := sqlSumWhere (rangeFilterPred uid s e) (fun tx => tx.type = "expense".toList) txs,
    balance := sqlSumWhere (rangeFilterPred uid s e) (fun tx => tx.type = "income".toList) txs -
      sqlSumWhere (rangeFilterPred uid s e) (fun tx => tx.type = "expense".toList) txs }

/-- Decode a month bucket key `YYYY…-MM` into its zero-based absolute
month index `12 * year + (month - 1)` (reading the fixed-width month part
from the right, the rest as the year). -/
def keyMonthIndex (k : Str) : Int :=
  12 * intCharsToInt (k.take (k.length - 3)) + (charsToNat (k.drop (k.length - 2)) : Int) - 1

/-- Decode a date key `YYYY…-MM-DD` back into its epoch day. -/
def keyEpochDay (k : Str) : Int :=
  civilToDays (intCharsToInt (k.take (k.length - 6)))
    (charsToNat ((k.drop (k.length - 5)).take 2) : Int)
    (charsToNat (k.drop (k.length - 2)) : Int)

/-- Chronological instant of a bucket key, used to state that planner keys
are strictly increasing: month keys order by absolute month index, week
keys by epoch day. -/
def keyTime (period : Str) (k : Str) : Int :=
  if period = "month".toList then keyMonthIndex k else keyEpochDay k

/-- Canonical `YYYY-MM-DD` character string of a calendar date, as stored
in the database (`isValidDate`-conforming rows). -/
def dateChars (y m d : Nat) : Str :=
  natToChars y ++ '-' :: (pad2 (m : Int) ++ '-' :: pad2 (d : Int))

/-- Folding a list of rows into a single bucket in order. -/
def foldOnto (b : Bucket) (rs : List TxRow) : Bucket :=
  rs.foldl (fun acc r => addRowToBucket r acc) b

/-- Range membership as the specification words it: a transaction date
lies within the optionally supplied bounds, where an absent or invalid
bound leaves that side of the range unbounded.  Stated separately from
`rangeFilterPred` (the SQL WHERE clause) to compare the two. -/
def inClaimRange (s e : Option Str) (date : Str) : Bool :=
  (match s with
   | none => true
   | some v => if isValidDate v then lexLe v date else true) &&
  (match e with
   | none => true
   | some v => if isValidDate v then lexLe date v else true)

/-! ## Theorems -/

theorem isLeap_iff (y : Int) :
    isLeap y = true ↔ ((y % 4 = 0 ∧ y % 100 ≠ 0) ∨ y % 400 = 0) := by
  simp [isLeap, Bool.or_eq_true, Bool.and_eq_true, beq_iff_eq, bne_iff_ne]

theorem isLeap_add_400 (e v : Int) : isLeap (400 * e + v) = isLeap v := by
  have h4 : (400 * e + v) % 4 = v % 4 := by omega
  have h100 : (400 * e + v) % 100 = v % 100 := by omega
  have h400 : (400 * e + v) % 400 = v % 400 := by omega
  simp [isLeap, h4, h100, h400]

theorem leap_if_arith (v : Int) : (if isLeap v = true then (1:Int) else 0) =
    (if (v % 4 = 0 ∧ v % 100 ≠ 0) ∨ v % 400 = 0 then (1:Int) else 0) := by
  by_cases h : isLeap v = true
  · rw [if_pos h, if_pos ((isLeap_iff v).mp h)]
  · rw [if_neg h, if_neg (fun hc => h ((isLeap_iff v).mpr hc))]

theorem yoeOf_bounds (doe : Int) (h0 : 0 ≤ doe) (h1 : doe ≤ 146096) :
    0 ≤ yoeOf doe ∧ yoeOf doe ≤ 399 ∧ yoeStart (yoeOf doe) ≤ doe ∧
    doe - yoeStart (yoeOf doe) ≤ 364 + (if isLeap (yoeOf doe + 1) = true then 1 else 0) := by
  have h4a : (doe/366+1)/4 = (doe/366)/4 ∨ (doe/366+1)/4 = (doe/366)/4 + 1 := by omega
  have h100a : (doe/366+1)/100 = (doe/366)/100 ∨ (doe/366+1)/100 = (doe/366)/100 + 1 := by
    omega
  have h4b : (doe/366+2)/4 = (doe/366+1)/4 ∨ (doe/366+2)/4 = (doe/366+1)/4 + 1 := by omega
  have h100b : (doe/366+2)/100 = (doe/366+1)/100 ∨ (doe/366+2)/100 = (doe/366+1)/100 + 1 := by
    omega
  unfold yoeOf yoeStart
  split
  · rw [leap_if_arith]
    rcases h4b with h | h <;> rcases h100b with h' | h' <;> split <;> omega
  · rw [leap_if_arith]
    rcases h4a with h | h <;> rcases h100a with h' | h' <;> split <;> omega

theorem yoeOf_eq (u doe : Int) (hu0 : 0 ≤ u) (hu1 : u ≤ 399)
    (hlo : yoeStart u ≤ doe)
    (hhi : doe ≤ yoeStart u + 364 + (if isLeap (u + 1) = true then 1 else 0)) :
    yoeOf doe = u := by
  rw [leap_if_arith] at hhi
  unfold yoeStart at hlo hhi
  have hcase : doe / 366 = u ∨ doe / 366 = u - 1 := by
    split at hhi <;> omega
  unfold yoeOf yoeStart
  rcases hcase with h | h
  · rw [h]
    split at hhi <;> split <;> omega
  · have h1 : doe / 366 + 1 = u := by omega
    rw [h1, h]
    split at hhi <;> split <;> omega

theorem mpOf_facts (doy : Int) (h0 : 0 ≤ doy) (h1 : doy ≤ 365) :
    0 ≤ mpOf doy ∧ mpOf doy ≤ 11 ∧ mpStart (mpOf doy) ≤ doy ∧
    (mpOf doy ≤ 10 → doy < mpStart (mpOf doy + 1)) ∧
    doy - mpStart (mpOf doy) + 1 ≤ 31 := by
  unfold mpOf mpStart
  omega

/-- Reconstructing an epoch day from its computed calendar date gives the
day back: `civilToDays` is a left inverse of `daysToCivil`. -/
theorem civilToDays_daysToCivil (t : Int) :
    civilToDays (dtcYear t) (dtcMonth t) (dtcDay t) = t := by
  have hdoe0 : 0 ≤ dtcDoe t := by unfold dtcDoe; omega
  have hdoe1 : dtcDoe t ≤ 146096 := by unfold dtcDoe; omega
  have ht : t + 719468 = 146097 * dtcEra t + dtcDoe t := by
    unfold dtcEra dtcDoe; omega
  obtain ⟨hu0, hu1, hs, _⟩ := yoeOf_bounds (dtcDoe t) hdoe0 hdoe1
  have hyd : dtcYoe t = yoeOf (dtcDoe t) := rfl
  rw [← hyd] at hu0 hu1 hs
  have hdoy0 : 0 ≤ dtcDoy t := by unfold dtcDoy; omega
  have hdoy1 : dtcDoy t ≤ 365 := by
    unfold dtcDoy
    rw [hyd]
    unfold yoeOf yoeStart
    split <;> omega
  obtain ⟨hmp0, hmp1, hms, _, _⟩ := mpOf_facts (dtcDoy t) hdoy0 hdoy1
  have hmpdef : dtcMp t = mpOf (dtcDoy t) := rfl
  rw [← hmpdef] at hmp0 hmp1 hms
  have hdoydef : dtcDoy t = dtcDoe t - yoeStart (dtcYoe t) := rfl
  unfold civilToDays civilYearAdj dtcYear dtcDay
  by_cases hm : dtcMp t < 10
  · have hmonth : dtcMonth t = dtcMp t + 3 := by unfold dtcMonth; rw [if_pos hm]
    rw [hmonth]
    have hnotle : ¬ (dtcMp t + 3 ≤ 2) := by omega
    rw [if_neg hnotle, if_neg hnotle, add_zero]
    have hmod : (dtcYoe t + 400 * dtcEra t) % 400 = dtcYoe t := by omega
    have hdiv : (dtcYoe t + 400 * dtcEra t) / 400 = dtcEra t := by omega
    rw [hmod, hdiv]
    have hmd : monthDoy (dtcMp t + 3) = mpStart (dtcMp t) := by
      unfold monthDoy
      have : (dtcMp t + 3 + 9) % 12 = dtcMp t := by omega
      rw [this]
    rw [hmd]
    unfold mpStart at *
    omega
  · have hmonth : dtcMonth t = dtcMp t - 9 := by unfold dtcMonth; rw [if_neg hm]
    rw [hmonth]
    have hle : dtcMp t - 9 ≤ 2 := by omega
    rw [if_pos hle, if_pos hle]
    have harg : dtcYoe t + 400 * dtcEra t + 1 - 1 = dtcYoe t + 400 * dtcEra t := by omega
    rw [harg]
    have hmod : (dtcYoe t + 400 * dtcEra t) % 400 = dtcYoe t := by omega
    have hdiv : (dtcYoe t + 400 * dtcEra t) / 400 = dtcEra t := by omega
    rw [hmod, hdiv]
    have hmd : monthDoy (dtcMp t - 9) = mpStart (dtcMp t) := by
      unfold monthDoy
      have : (dtcMp t - 9 + 9) % 12 = dtcMp t := by omega
      rw [this]
    rw [hmd]
    unfold mpStart at *
    omega

theorem yoeStart_bounds (v : Int) (h0 : 0 ≤ v) (h1 : v ≤ 399) :
    0 ≤ yoeStart v ∧ yoeStart v ≤ 145731 := by
  unfold yoeStart
  omega

theorem monthDoy_add_day_bounds (y m d : Int) (hm1 : 1 ≤ m) (hm2 : m ≤ 12)
    (hd1 : 1 ≤ d) (hd2 : d ≤ daysInMonth y m) :
    0 ≤ monthDoy m + d - 1 ∧
    monthDoy m + d - 1 ≤ 364 + (if isLeap y = true then 1 else 0) := by
  unfold daysInMonth at hd2
  unfold monthDoy mpStart
  constructor
  · omega
  · rw [leap_if_arith]
    split at hd2
    · split at hd2 <;> rw [isLeap_iff] at * <;> split <;> omega
    · split at hd2 <;> split <;> omega

theorem civilToDays_decomp (y m d : Int) :
    civilToDays y m d = 146097 * (civilYearAdj y m / 400) +
      (yoeStart (civilYearAdj y m % 400) + (monthDoy m + d - 1)) - 719468 := by
  unfold civilToDays
  ring

/-- On a calendar-valid date, `daysToCivil` recovers the components the
epoch day was built from: it is a right inverse of `civilToDays`. -/
theorem daysToCivil_civilToDays (y m d : Int) (hm1 : 1 ≤ m) (hm2 : m ≤ 12)
    (hd1 : 1 ≤ d) (hd2 : d ≤ daysInMonth y m) :
    daysToCivil (civilToDays y m d) = (y, m, d) := by
  have hU0 : 0 ≤ civilYearAdj y m % 400 := by omega
  have hU1 : civilYearAdj y m % 400 ≤ 399 := by omega
  obtain ⟨hS0, hS1⟩ := yoeStart_bounds (civilYearAdj y m % 400) hU0 hU1
  have hLeapCong : isLeap y = isLeap (civilYearAdj y m % 400 + 1) ∨ ¬ m = 2 := by
    by_cases hm : m = 2
    · left
      have hadj : civilYearAdj y m = y - 1 := by unfold civilYearAdj; rw [if_pos (by omega)]
      have hy : y = 400 * ((y-1)/400) + ((y-1) % 400 + 1) := by omega
      rw [hadj]
      calc isLeap y = isLeap (400 * ((y-1)/400) + ((y-1) % 400 + 1)) := by rw [← hy]
        _ = isLeap ((y-1) % 400 + 1) := isLeap_add_400 _ _
    · right; exact hm
  have hd31 : d ≤ 31 ∧ (m = 2 → d ≤ 29) := by
    unfold daysInMonth at hd2
    split at hd2
    · split at hd2 <;> omega
    · split at hd2 <;> omega
  have hD : 0 ≤ monthDoy m + d - 1 ∧
      monthDoy m + d - 1 ≤ 364 + (if isLeap (civilYearAdj y m % 400 + 1) = true then 1 else 0) := by
    rcases hLeapCong with hcong | hne
    · obtain ⟨ha, hb⟩ := monthDoy_add_day_bounds y m d hm1 hm2 hd1 hd2
      rw [hcong] at hb
      exact ⟨ha, hb⟩
    · have hda := hd31.1
      have hmod : (m + 9) % 12 ≤ 10 := by omega
      unfold monthDoy mpStart
      refine ⟨by omega, ?_⟩
      split <;> omega
  have hIf1 : (if isLeap (civilYearAdj y m % 400 + 1) = true then (1:Int) else 0) ≤ 1 := by
    split <;> omega
  have hIf0 : 0 ≤ (if isLeap (civilYearAdj y m % 400 + 1) = true then (1:Int) else 0) := by
    split <;> omega
  have hDB : 0 ≤ monthDoy m + d - 1 ∧ monthDoy m + d - 1 ≤ 365 := by
    refine ⟨hD.1, ?_⟩
    linarith [hD.2, hIf1]
  have hEra : dtcEra (civilToDays y m d) = civilYearAdj y m / 400 := by
    rw [civilToDays_decomp]
    unfold dtcEra
    omega
  have hDoe : dtcDoe (civilToDays y m d) =
      yoeStart (civilYearAdj y m % 400) + (monthDoy m + d - 1) := by
    rw [civilToDays_decomp]
    unfold dtcDoe
    omega
  have hYoe : dtcYoe (civilToDays y m d) = civilYearAdj y m % 400 := by
    unfold dtcYoe
    rw [hDoe]
    exact yoeOf_eq _ _ hU0 hU1 (by omega) (by linarith [hD.2])
  have hDoy : dtcDoy (civilToDays y m d) = monthDoy m + d - 1 := by
    unfold dtcDoy
    rw [hDoe, hYoe]
    ring
  have hMp : dtcMp (civilToDays y m d) = (m + 9) % 12 := by
    unfold dtcMp
    rw [hDoy]
    unfold mpOf monthDoy mpStart
    by_cases hmf : m = 2
    · have hd29 := hd31.2 hmf
      subst hmf
      omega
    · unfold daysInMonth at hd2
      interval_cases m <;> norm_num at hd2 <;> omega
  have hMonth : dtcMonth (civilToDays y m d) = m := by
    unfold dtcMonth
    rw [hMp]
    split <;> omega
  have hDay : dtcDay (civilToDays y m d) = d := by
    unfold dtcDay
    rw [hDoy, hMp]
    unfold monthDoy
    ring
  have hYear : dtcYear (civilToDays y m d) = y := by
    unfold dtcYear
    rw [hYoe, hEra, hMonth]
    unfold civilYearAdj
    split <;> omega
  unfold daysToCivil
  rw [hYear, hMonth, hDay]

theorem dayLen_from_mp (y mp doy : Int) (h0 : 0 ≤ mp) (h1 : mp ≤ 10)
    (hms : mpStart mp ≤ doy) (hlt : doy < mpStart (mp + 1)) :
    doy - mpStart mp + 1 ≤ daysInMonth y (if mp < 10 then mp + 3 else mp - 9) := by
  unfold mpStart at hms hlt
  interval_cases mp <;> norm_num [daysInMonth, mpStart] <;> omega

/-- The calendar date computed from an epoch day is always valid: month in
1–12 and day within the month's true length (leap years included). -/
theorem daysToCivil_valid (t : Int) :
    1 ≤ dtcMonth t ∧ dtcMonth t ≤ 12 ∧ 1 ≤ dtcDay t ∧
    dtcDay t ≤ daysInMonth (dtcYear t) (dtcMonth t) := by
  have hdoe0 : 0 ≤ dtcDoe t := by unfold dtcDoe; omega
  have hdoe1 : dtcDoe t ≤ 146096 := by unfold dtcDoe; omega
  obtain ⟨hu0, hu1, hs, hL⟩ := yoeOf_bounds (dtcDoe t) hdoe0 hdoe1
  have hyd : dtcYoe t = yoeOf (dtcDoe t) := rfl
  rw [← hyd] at hu0 hu1 hs hL
  have hdoy0 : 0 ≤ dtcDoy t := by unfold dtcDoy; omega
  have hdoy1 : dtcDoy t ≤ 365 := by
    have h1 : (if isLeap (dtcYoe t + 1) = true then (1:Int) else 0) ≤ 1 := by
      split <;> omega
    have h2 : dtcDoy t = dtcDoe t - yoeStart (dtcYoe t) := rfl
    linarith [hL]
  obtain ⟨hmp0, hmp1, hms, hnext, hd31⟩ := mpOf_facts (dtcDoy t) hdoy0 hdoy1
  have hmpdef : dtcMp t = mpOf (dtcDoy t) := rfl
  rw [← hmpdef] at hmp0 hmp1 hms hnext hd31
  have hdoydef : dtcDoy t = dtcDoe t - yoeStart (dtcYoe t) := rfl
  refine ⟨?_, ?_, ?_, ?_⟩
  · unfold dtcMonth
    split <;> omega
  · unfold dtcMonth
    split <;> omega
  · unfold dtcDay
    omega
  · by_cases hfeb : dtcMp t = 11
    · have hm2 : dtcMonth t = 2 := by
        unfold dtcMonth
        split <;> omega
      rw [hm2]
      have hyeq : dtcYear t = 400 * dtcEra t + (dtcYoe t + 1) := by
        unfold dtcYear
        rw [hm2]
        omega
      have hleapy : isLeap (dtcYear t) = isLeap (dtcYoe t + 1) := by
        rw [hyeq, isLeap_add_400]
      have hdim : daysInMonth (dtcYear t) 2 = if isLeap (dtcYoe t + 1) = true then 29 else 28 := by
        unfold daysInMonth
        rw [if_pos rfl, hleapy]
      rw [hdim]
      have hmps : mpStart (dtcMp t) = 337 := by rw [hfeb]; decide
      unfold dtcDay
      rw [hmps]
      by_cases hlp : isLeap (dtcYoe t + 1) = true
      · rw [if_pos hlp]
        rw [if_pos hlp] at hL
        omega
      · rw [if_neg hlp]
        rw [if_neg hlp] at hL
        omega
    · have hm10 : dtcMp t ≤ 10 := by omega
      have := dayLen_from_mp (dtcYear t) (dtcMp t) (dtcDoy t) hmp0 hm10 hms (hnext hm10)
      have hmeq : dtcMonth t = if dtcMp t < 10 then dtcMp t + 3 else dtcMp t - 9 := rfl
      rw [hmeq]
      exact this

theorem natToCharsAux_zero (fuel : Nat) : natToCharsAux fuel 0 = [] := by
  cases fuel <;> simp [natToCharsAux]

theorem charsToNat_append_digit (s : Str) (c : Char) :
    charsToNat (s ++ [c]) = charsToNat s * 10 + digitVal c := by
  unfold charsToNat
  rw [List.foldl_append]
  rfl

theorem digitVal_digitChar (d : Nat) (h : d < 10) :
    digitVal (Nat.digitChar d) = d := by
  interval_cases d <;> decide

theorem digitChar_isDigit (d : Nat) (h : d < 10) :
    (Nat.digitChar d).isDigit = true := by
  interval_cases d <;> decide

theorem charsToNat_natToCharsAux (fuel : Nat) :
    ∀ n : Nat, n ≤ fuel → charsToNat (natToCharsAux fuel n) = n := by
  induction fuel with
  | zero =>
    intro n hn
    have : n = 0 := by omega
    subst this
    decide
  | succ f ih =>
    intro n hn
    unfold natToCharsAux
    by_cases h0 : n = 0
    · subst h0
      simp [charsToNat]
    · rw [if_neg h0, charsToNat_append_digit, ih (n / 10) (by omega),
        digitVal_digitChar (n % 10) (by omega)]
      omega

theorem charsToNat_natToChars (n : Nat) : charsToNat (natToChars n) = n := by
  unfold natToChars
  by_cases h0 : n = 0
  · subst h0
    decide
  · rw [if_neg h0]
    exact charsToNat_natToCharsAux n n le_rfl

theorem natToCharsAux_all_digits (fuel : Nat) :
    ∀ n : Nat, (natToCharsAux fuel n).all Char.isDigit = true := by
  induction fuel with
  | zero => intro n; simp [natToCharsAux]
  | succ f ih =>
    intro n
    unfold natToCharsAux
    by_cases h0 : n = 0
    · rw [if_pos h0]; decide
    · rw [if_neg h0, List.all_append, ih (n / 10)]
      simp [digitChar_isDigit (n % 10) (by omega)]

theorem natToChars_all_digits (n : Nat) : (natToChars n).all Char.isDigit = true := by
  unfold natToChars
  by_cases h0 : n = 0
  · rw [if_pos h0]; decide
  · rw [if_neg h0]
    exact natToCharsAux_all_digits n n

theorem natToChars_ne_nil (n : Nat) : natToChars n ≠ [] := by
  unfold natToChars
  by_cases h0 : n = 0
  · rw [if_pos h0]; simp
  · rw [if_neg h0]
    cases n with
    | zero => exact absurd rfl h0
    | succ m => simp [natToCharsAux]

theorem intCharsToInt_digits (s : Str) (hs : s.all Char.isDigit = true) :
    intCharsToInt s = (charsToNat s : Int) := by
  cases s with
  | nil => rfl
  | cons c rest =>
    simp only [intCharsToInt]
    rw [List.all_cons, Bool.and_eq_true] at hs
    have hc : ¬ c = '-' := by
      intro h
      subst h
      exact absurd hs.1 (by decide)
    rw [if_neg hc]

theorem intCharsToInt_intToChars (z : Int) : intCharsToInt (intToChars z) = z := by
  unfold intToChars
  by_cases hz : z < 0
  · rw [if_pos hz]
    simp only [intCharsToInt]
    rw [if_pos trivial, charsToNat_natToChars]
    omega
  · rw [if_neg hz]
    rw [intCharsToInt_digits _ (natToChars_all_digits _), charsToNat_natToChars]
    omega

theorem charsToNat_replicate_zero (k : Nat) (s : Str) :
    charsToNat (List.replicate k '0' ++ s) = charsToNat s := by
  induction k with
  | zero => simp
  | succ m ih =>
    rw [List.replicate_succ, List.cons_append]
    unfold charsToNat at *
    rw [List.foldl_cons]
    simpa using ih

theorem charsToNat_pad2 (z : Int) (hz : 0 ≤ z) : (charsToNat (pad2 z) : Int) = z := by
  have hi : intToChars z = natToChars z.toNat := by
    unfold intToChars
    rw [if_neg (by omega : ¬ z < 0)]
  unfold pad2 padStart2
  rw [hi]
  split
  · rw [charsToNat_replicate_zero, charsToNat_natToChars]
    omega
  · rw [charsToNat_natToChars]
    omega

theorem digit_ne_dash (c : Char) (h : c.isDigit = true) : c ≠ '-' := by
  intro he
  subst he
  exact absurd h (by decide)

theorem no_dash_of_all_digits (s : Str) (h : s.all Char.isDigit = true) :
    ∀ c ∈ s, c ≠ '-' := by
  intro c hc
  rw [List.all_eq_true] at h
  exact digit_ne_dash c (h c hc)

theorem intToChars_nonneg (z : Int) (hz : 0 ≤ z) : intToChars z = natToChars z.toNat := by
  unfold intToChars
  rw [if_neg (by omega : ¬ z < 0)]

theorem intToChars_all_digits (z : Int) (hz : 0 ≤ z) :
    (intToChars z).all Char.isDigit = true := by
  rw [intToChars_nonneg z hz]
  exact natToChars_all_digits _

theorem pad2_all_digits (z : Int) (hz : 0 ≤ z) : (pad2 z).all Char.isDigit = true := by
  unfold pad2 padStart2
  rw [intToChars_nonneg z hz]
  split
  · rw [List.all_append, natToChars_all_digits, Bool.and_true]
    rw [List.all_eq_true]
    intro c hc
    rw [List.eq_of_mem_replicate hc]
    decide
  · exact natToChars_all_digits _

theorem splitDash_no_dash (a : Str) (ha : ∀ c ∈ a, c ≠ '-') : splitDash a = [a] := by
  induction a with
  | nil => rfl
  | cons c rest ih =>
    simp only [splitDash]
    rw [if_neg (ha c (List.mem_cons_self c rest))]
    rw [ih fun x hx => ha x (List.mem_cons_of_mem c hx)]

theorem splitDash_append (a b : Str) (ha : ∀ c ∈ a, c ≠ '-') :
    splitDash (a ++ '-' :: b) = a :: splitDash b := by
  induction a with
  | nil =>
    simp only [List.nil_append, splitDash]
    rw [if_pos trivial]
  | cons c rest ih =>
    simp only [List.cons_append, splitDash]
    rw [if_neg (ha c (List.mem_cons_self c rest))]
    simp only [List.append_eq]
    rw [ih fun x hx => ha x (List.mem_cons_of_mem c hx)]

theorem charsToNat_intToChars (z : Int) (hz : 0 ≤ z) :
    (charsToNat (intToChars z) : Int) = z := by
  rw [intToChars_nonneg z hz, charsToNat_natToChars]
  omega

theorem parseNat_digits (s : Str) (h : s.all Char.isDigit = true) :
    parseNat s = some (charsToNat s) := by
  unfold parseNat
  rw [if_pos h]

theorem daysInMonth_le_31 (y m : Int) : daysInMonth y m ≤ 31 := by
  unfold daysInMonth
  split
  · split <;> omega
  · split <;> omega

theorem jsGetMonth_add_one (t : Int) : jsGetMonth t + 1 = dtcMonth t := by
  unfold jsGetMonth
  ring

theorem formatDate_eq (t : Int) :
    formatDate t = intToChars (dtcYear t) ++ '-' :: (pad2 (dtcMonth t) ++ '-' :: pad2 (dtcDay t)) := by
  unfold formatDate
  rw [jsGetMonth_add_one]
  rfl

theorem splitDash_formatDate (t : Int) (hy : 0 ≤ dtcYear t) :
    splitDash (formatDate t) = [intToChars (dtcYear t), pad2 (dtcMonth t), pad2 (dtcDay t)] := by
  obtain ⟨hm1, hm2, hd1, hd2⟩ := daysToCivil_valid t
  rw [formatDate_eq]
  rw [splitDash_append _ _ (no_dash_of_all_digits _ (intToChars_all_digits _ hy))]
  rw [splitDash_append _ _ (no_dash_of_all_digits _ (pad2_all_digits _ (by omega)))]
  rw [splitDash_no_dash _ (no_dash_of_all_digits _ (pad2_all_digits _ (by omega)))]

theorem jsMkDate_norm (y m d : Int) (hm1 : 1 ≤ m) (hm2 : m ≤ 12) :
    jsMkDate y (m - 1) d = civilToDays y m d := by
  unfold jsMkDate
  have h1 : (12 * y + (m - 1)) / 12 = y := by omega
  have h2 : (12 * y + (m - 1)) % 12 + 1 = m := by omega
  rw [h1, h2]

theorem parseISODate_formatDate (t : Int) (hy : 0 ≤ dtcYear t) :
    parseISODate (formatDate t) = some t := by
  obtain ⟨hm1, hm2, hd1, hd2⟩ := daysToCivil_valid t
  have hd31 := daysInMonth_le_31 (dtcYear t) (dtcMonth t)
  unfold parseISODate
  rw [splitDash_formatDate t hy]
  rw [List.map_cons, List.map_cons, List.map_cons, List.map_nil]
  rw [parseNat_digits _ (intToChars_all_digits _ hy),
    parseNat_digits _ (pad2_all_digits _ (by omega)),
    parseNat_digits _ (pad2_all_digits _ (by omega))]
  have hY : (charsToNat (intToChars (dtcYear t)) : Int) = dtcYear t :=
    charsToNat_intToChars _ hy
  have hM : (charsToNat (pad2 (dtcMonth t)) : Int) = dtcMonth t :=
    charsToNat_pad2 _ (by omega)
  have hD : (charsToNat (pad2 (dtcDay t)) : Int) = dtcDay t :=
    charsToNat_pad2 _ (by omega)
  simp only []
  rw [hY, hM, hD, jsMkDate_norm _ _ _ hm1 hm2, civilToDays_daysToCivil]

theorem natToCharsAux_length_pow (fuel : Nat) :
    ∀ n k : Nat, n ≤ fuel → 10^k ≤ n → n < 10^(k+1) →
      (natToCharsAux fuel n).length = k + 1 := by
  induction fuel with
  | zero =>
    intro n k hn h1 h2
    have hp : 1 ≤ 10^k := Nat.one_le_pow _ _ (by norm_num)
    omega
  | succ f ih =>
    intro n k hn h1 h2
    have hp : 1 ≤ 10^k := Nat.one_le_pow _ _ (by norm_num)
    have hn0 : ¬ n = 0 := by omega
    unfold natToCharsAux
    rw [if_neg hn0, List.length_append]
    cases k with
    | zero =>
      have h2' : n < 10 := by simpa using h2
      have hdiv : n / 10 = 0 := by omega
      rw [hdiv, natToCharsAux_zero]
      rfl
    | succ j =>
      have h1' : 10^j * 10 ≤ n := by
        calc 10^j * 10 = 10^(j+1) := (pow_succ 10 j).symm
          _ ≤ n := h1
      have h2' : n < 10^j * 100 := by
        calc n < 10^(j+1+1) := h2
          _ = 10^j * 100 := by rw [pow_succ, pow_succ]; ring
      have hd1 : 10^j ≤ n / 10 := by omega
      have hd2 : n / 10 < 10^(j+1) := by rw [pow_succ]; omega
      rw [ih (n/10) j (by omega) hd1 hd2]
      rfl

theorem natToChars_length_4 (n : Nat) (h1 : 1000 ≤ n) (h2 : n ≤ 9999) :
    (natToChars n).length = 4 := by
  unfold natToChars
  rw [if_neg (by omega)]
  have := natToCharsAux_length_pow n n 3 le_rfl (by norm_num; omega) (by norm_num; omega)
  simpa using this

theorem natToChars_length_le_2 (n : Nat) (h : n ≤ 99) : (natToChars n).length ≤ 2 := by
  unfold natToChars
  by_cases h0 : n = 0
  · rw [if_pos h0]; decide
  · rw [if_neg h0]
    by_cases h9 : n ≤ 9
    · have := natToCharsAux_length_pow n n 0 le_rfl (by omega) (by norm_num; omega)
      omega
    · have := natToCharsAux_length_pow n n 1 le_rfl (by norm_num; omega) (by norm_num; omega)
      omega

theorem pad2_length (z : Int) (h0 : 0 ≤ z) (h1 : z ≤ 99) : (pad2 z).length = 2 := by
  unfold pad2 padStart2
  rw [intToChars_nonneg z h0]
  have hle := natToChars_length_le_2 z.toNat (by omega)
  split
  · rw [List.length_append, List.length_replicate]
    omega
  · omega

theorem intToChars_length_4 (z : Int) (h1 : 1000 ≤ z) (h2 : z ≤ 9999) :
    (intToChars z).length = 4 := by
  rw [intToChars_nonneg z (by omega)]
  exact natToChars_length_4 z.toNat (by omega) (by omega)

theorem take_at_append (a b : Str) (n : Nat) (h : n = a.length) : (a ++ b).take n = a := by
  subst h
  exact List.take_left a b

theorem drop_at_append (a b : Str) (n : Nat) (h : n = a.length) : (a ++ b).drop n = b := by
  subst h
  exact List.drop_left a b

theorem keyEpochDay_formatDate (t : Int) : keyEpochDay (formatDate t) = t := by
  obtain ⟨hm1, hm2, hd1, hd2⟩ := daysToCivil_valid t
  have hd31 := daysInMonth_le_31 (dtcYear t) (dtcMonth t)
  have hml : (pad2 (dtcMonth t)).length = 2 := pad2_length _ (by omega) (by omega)
  have hdl : (pad2 (dtcDay t)).length = 2 := pad2_length _ (by omega) (by omega)
  have hshape : formatDate t =
      intToChars (dtcYear t) ++ '-' :: (pad2 (dtcMonth t) ++ '-' :: pad2 (dtcDay t)) :=
    formatDate_eq t
  have hlen : (formatDate t).length = (intToChars (dtcYear t)).length + 6 := by
    rw [hshape]
    simp [hml, hdl]
  unfold keyEpochDay
  have htake : (formatDate t).take ((formatDate t).length - 6) = intToChars (dtcYear t) := by
    rw [hlen, hshape]
    exact take_at_append _ _ _ (by omega)
  have hshape2 : formatDate t =
      (intToChars (dtcYear t) ++ '-' :: pad2 (dtcMonth t) ++ ['-']) ++ pad2 (dtcDay t) := by
    rw [hshape]
    simp
  have hdrop2 : (formatDate t).drop ((formatDate t).length - 2) = pad2 (dtcDay t) := by
    rw [hlen]
    rw [hshape2]
    refine drop_at_append _ _ _ ?_
    simp [hml]
  have hshape5 : formatDate t =
      (intToChars (dtcYear t) ++ ['-']) ++ (pad2 (dtcMonth t) ++ '-' :: pad2 (dtcDay t)) := by
    rw [hshape]
    simp
  have hdrop5 : (formatDate t).drop ((formatDate t).length - 5) =
      pad2 (dtcMonth t) ++ '-' :: pad2 (dtcDay t) := by
    rw [hlen, hshape5]
    refine drop_at_append _ _ _ ?_
    simp
  have htake5 : ((formatDate t).drop ((formatDate t).length - 5)).take 2 = pad2 (dtcMonth t) := by
    rw [hdrop5]
    exact take_at_append _ _ _ (by omega)
  rw [htake, hdrop2, htake5]
  rw [intCharsToInt_intToChars, charsToNat_pad2 _ (by omega), charsToNat_pad2 _ (by omega)]
  exact civilToDays_daysToCivil t

theorem keyMonthIndex_monthBucketKey (t : Int) :
    keyMonthIndex (monthBucketKey t) = 12 * dtcYear t + (dtcMonth t - 1) := by
  obtain ⟨hm1, hm2, _, _⟩ := daysToCivil_valid t
  have hkey : monthBucketKey t = intToChars (dtcYear t) ++ '-' :: pad2 (dtcMonth t) := by
    unfold monthBucketKey
    rw [jsGetMonth_add_one]
    rfl
  have hml : (pad2 (dtcMonth t)).length = 2 := pad2_length _ (by omega) (by omega)
  have hlen : (monthBucketKey t).length = (intToChars (dtcYear t)).length + 3 := by
    rw [hkey]
    simp [hml]
  unfold keyMonthIndex
  have htake : (monthBucketKey t).take ((monthBucketKey t).length - 3) =
      intToChars (dtcYear t) := by
    rw [hlen, hkey]
    exact take_at_append _ _ _ (by omega)
  have hshape2 : monthBucketKey t = (intToChars (dtcYear t) ++ ['-']) ++ pad2 (dtcMonth t) := by
    rw [hkey]
    simp
  have hdrop : (monthBucketKey t).drop ((monthBucketKey t).length - 2) = pad2 (dtcMonth t) := by
    rw [hlen, hshape2]
    refine drop_at_append _ _ _ ?_
    simp
  rw [htake, hdrop, intCharsToInt_intToChars, charsToNat_pad2 _ (by omega)]
  omega

theorem jsGetDay_startOfWeek (t : Int) : jsGetDay (startOfWeek t) = 1 := by
  unfold startOfWeek jsGetDay
  omega

theorem startOfWeek_window (t : Int) : startOfWeek t ≤ t ∧ t < startOfWeek t + 7 := by
  unfold startOfWeek jsGetDay
  omega

theorem startOfWeek_remap (t : Int) : startOfWeek t = t - (jsGetDay t + 6) % 7 := rfl

theorem startOfWeek_of_monday (w t : Int) (hw : jsGetDay w = 1) (h1 : w ≤ t)
    (h2 : t ≤ w + 6) : startOfWeek t = w := by
  unfold startOfWeek jsGetDay at *
  omega

theorem daysInMonth_pos (y m : Int) : 1 ≤ daysInMonth y m := by
  unfold daysInMonth
  split
  · split <;> omega
  · split <;> omega

theorem dtc_jsMkDate_one (y m : Int) :
    dtcYear (jsMkDate y m 1) = (12 * y + m) / 12 ∧
    dtcMonth (jsMkDate y m 1) = (12 * y + m) % 12 + 1 ∧
    dtcDay (jsMkDate y m 1) = 1 := by
  have hv := daysToCivil_civilToDays ((12 * y + m) / 12) ((12 * y + m) % 12 + 1) 1
    (by omega) (by omega) (by omega) (daysInMonth_pos _ _)
  unfold daysToCivil at hv
  rw [Prod.mk.injEq, Prod.mk.injEq] at hv
  exact ⟨hv.1, hv.2.1, hv.2.2⟩

theorem monthIdx_jsMkDate_one (y m : Int) :
    12 * dtcYear (jsMkDate y m 1) + (dtcMonth (jsMkDate y m 1) - 1) = 12 * y + m := by
  obtain ⟨h1, h2, _⟩ := dtc_jsMkDate_one y m
  rw [h1, h2]
  omega

theorem keyMonthIndex_planMonth (s : Int) (i : Nat) :
    keyMonthIndex (monthBucketKey (planMonthCurrent s i)) =
      12 * dtcYear s + (dtcMonth s - 1) + i := by
  unfold planMonthCurrent
  rw [keyMonthIndex_monthBucketKey]
  have hthis := monthIdx_jsMkDate_one (jsGetFullYear s) (jsGetMonth s + (i : Int))
  have hy : jsGetFullYear s = dtcYear s := rfl
  have hm : jsGetMonth s = dtcMonth s - 1 := by unfold jsGetMonth; ring
  rw [hy, hm] at hthis ⊢
  omega

theorem era_step (y : Int) :
    146097 * (y / 400) + yoeStart (y % 400) =
    146097 * ((y - 1) / 400) + yoeStart ((y - 1) % 400) + 365 +
      (if isLeap y = true then 1 else 0) := by
  rw [leap_if_arith]
  unfold yoeStart
  have hcase : (y - 1) % 400 = y % 400 - 1 ∨ ((y - 1) % 400 = 399 ∧ y % 400 = 0) := by omega
  rcases hcase with h | h
  · rw [h]
    have h4 : (y % 400) / 4 = (y % 400 - 1) / 4 ∨ (y % 400) / 4 = (y % 400 - 1) / 4 + 1 := by
      omega
    have h100 : (y % 400) / 100 = (y % 400 - 1) / 100 ∨
        (y % 400) / 100 = (y % 400 - 1) / 100 + 1 := by omega
    rcases h4 with h4 | h4 <;> rcases h100 with hc | hc <;> split <;> omega
  · rw [h.1, h.2]
    split <;> omega

theorem month_boundary (y m : Int) (hm1 : 1 ≤ m) (hm2 : m ≤ 11) :
    civilToDays y (m + 1) 1 = civilToDays y m (daysInMonth y m) + 1 := by
  by_cases hm : m = 2
  · subst hm
    unfold civilToDays civilYearAdj daysInMonth monthDoy mpStart
    norm_num
    rw [era_step y]
    split <;> omega
  · have hdim : daysInMonth y m = if m = 4 ∨ m = 6 ∨ m = 9 ∨ m = 11 then 30 else 31 := by
      unfold daysInMonth
      rw [if_neg hm]
    rw [hdim]
    unfold civilToDays civilYearAdj monthDoy mpStart
    interval_cases m <;> simp_all <;> omega

theorem year_boundary (y : Int) :
    civilToDays (y + 1) 1 1 = civilToDays y 12 31 + 1 := by
  unfold civilToDays civilYearAdj monthDoy mpStart
  rw [if_pos (by omega : (1 : Int) ≤ 2), if_neg (by omega : ¬ (12 : Int) ≤ 2)]
  have : y + 1 - 1 = y := by ring
  rw [this]
  omega

theorem addRowToBucket_key (r : TxRow) (b : Bucket) : (addRowToBucket r b).key = b.key := by
  unfold addRowToBucket
  split <;> rfl

theorem updateLastMatch_map (k : Str) (f : Bucket → Bucket) (bs : List Bucket)
    (hnd : (bs.map Bucket.key).Nodup) :
    updateLastMatch k f bs = bs.map fun b => if b.key = k then f b else b := by
  induction bs with
  | nil => rfl
  | cons b rest ih =>
    rw [List.map_cons, List.nodup_cons] at hnd
    simp only [updateLastMatch, List.map_cons]
    by_cases hany : rest.any fun x => decide (x.key = k)
    · rw [if_pos hany]
      have hbk : ¬ b.key = k := by
        rw [List.any_eq_true] at hany
        obtain ⟨x, hx, hxk⟩ := hany
        rw [decide_eq_true_eq] at hxk
        intro hb
        exact hnd.1 (by rw [hb, ← hxk]; exact List.mem_map_of_mem Bucket.key hx)
      rw [if_neg hbk, ih hnd.2]
    · rw [if_neg hany]
      have hnone : ∀ x ∈ rest, ¬ x.key = k := by
        intro x hx hk
        exact hany (List.any_eq_true.mpr ⟨x, hx, by rw [decide_eq_true_eq]; exact hk⟩)
      by_cases hbk : b.key = k
      · rw [if_pos hbk, if_pos hbk]
        have hmapid : rest.map (fun x => if x.key = k then f x else x) = rest := by
          have hpt : ∀ x ∈ rest, (if x.key = k then f x else x) = x := by
            intro x hx
            rw [if_neg (hnone x hx)]
          rw [List.map_congr_left hpt]
          simp
        rw [hmapid]
      · rw [if_neg hbk, if_neg hbk, ih hnd.2]

theorem foldOnto_key (rs : List TxRow) : ∀ b : Bucket, (foldOnto b rs).key = b.key := by
  induction rs with
  | nil => intro b; rfl
  | cons r rest ih =>
    intro b
    show (foldOnto (addRowToBucket r b) rest).key = b.key
    rw [ih (addRowToBucket r b), addRowToBucket_key]

theorem foldOnto_sums (rs : List TxRow) : ∀ b : Bucket,
    (foldOnto b rs).income = b.income +
      ((rs.filter fun r => decide (r.type = "income".toList)).map TxRow.amount).sum ∧
    (foldOnto b rs).expense = b.expense +
      ((rs.filter fun r => !(decide (r.type = "income".toList))).map TxRow.amount).sum := by
  induction rs with
  | nil => intro b; simp [foldOnto]
  | cons r rest ih =>
    intro b
    have hstep : foldOnto b (r :: rest) = foldOnto (addRowToBucket r b) rest := rfl
    rw [hstep]
    obtain ⟨ih1, ih2⟩ := ih (addRowToBucket r b)
    by_cases hr : r.type = "income".toList
    · have hab : addRowToBucket r b = { b with income := b.income + r.amount } := by
        unfold addRowToBucket
        rw [if_pos hr]
      rw [List.filter_cons, List.filter_cons]
      simp only [decide_eq_true_eq, Bool.not_eq_true', decide_eq_false_iff_not]
      rw [if_pos hr, if_neg (fun hc => hc hr)]
      constructor
      · rw [ih1, hab]
        simp
        ring
      · rw [ih2, hab]
    · have hab : addRowToBucket r b = { b with expense := b.expense + r.amount } := by
        unfold addRowToBucket
        rw [if_neg hr]
      rw [List.filter_cons, List.filter_cons]
      simp only [decide_eq_true_eq, Bool.not_eq_true', decide_eq_false_iff_not]
      rw [if_neg hr, if_pos hr]
      constructor
      · rw [ih1, hab]
      · rw [ih2, hab]
        simp
        ring

theorem aggregate_eq_map (period : Str) (rows : List TxRow) :
    ∀ bs : List Bucket, (bs.map Bucket.key).Nodup →
    aggregate period bs rows = bs.map fun b =>
      foldOnto b (rows.filter fun r => decide (rowKey period r.date = b.key)) := by
  induction rows with
  | nil =>
    intro bs hnd
    show bs = bs.map fun b => foldOnto b ([].filter fun r => decide (rowKey period r.date = b.key))
    simp [foldOnto]
  | cons r rs ih =>
    intro bs hnd
    have hstep : aggregate period bs (r :: rs) =
        aggregate period (updateLastMatch (rowKey period r.date) (addRowToBucket r) bs) rs := rfl
    rw [hstep, updateLastMatch_map _ _ _ hnd]
    have hkeyif : ∀ b : Bucket,
        (if b.key = rowKey period r.date then addRowToBucket r b else b).key = b.key := by
      intro b
      split
      · exact addRowToBucket_key r b
      · rfl
    have hkeys : ((bs.map fun b => if b.key = rowKey period r.date then addRowToBucket r b
        else b).map Bucket.key) = bs.map Bucket.key := by
      rw [List.map_map]
      exact List.map_congr_left fun b _ => hkeyif b
    rw [ih _ (by rw [hkeys]; exact hnd)]
    rw [List.map_map]
    apply List.map_congr_left
    intro b _
    simp only [Function.comp, hkeyif b]
    rw [List.filter_cons]
    simp only [decide_eq_true_eq]
    by_cases hmatch : rowKey period r.date = b.key
    · rw [if_pos hmatch, if_pos hmatch.symm]
      rfl
    · rw [if_neg hmatch, if_neg (fun hc => hmatch hc.symm)]

theorem planBucketsMonth_length (count today : Int) :
    (planBucketsMonth count today).length = count.toNat := by
  unfold planBucketsMonth
  rw [List.length_map, List.length_range]

theorem planBucketsWeek_length (count today : Int) :
    (planBucketsWeek count today).length = count.toNat := by
  unfold planBucketsWeek
  rw [List.length_map, List.length_range]

theorem monthBucketKey_eq (t : Int) :
    monthBucketKey t = intToChars (dtcYear t) ++ '-' :: pad2 (dtcMonth t) := by
  unfold monthBucketKey
  rw [jsGetMonth_add_one]
  rfl

theorem keyEpochDay_planWeek (s : Int) (i : Nat) :
    keyEpochDay (formatDate (planWeekCurrent s i)) = s + (i : Int) * 7 := by
  rw [keyEpochDay_formatDate]
  rfl

theorem planMonth_keys_pairwise (count today : Int) :
    ((planBucketsMonth count today).map Bucket.key).Pairwise
      (fun a b => keyMonthIndex a < keyMonthIndex b) := by
  unfold planBucketsMonth
  rw [List.map_map]
  rw [List.pairwise_map]
  refine (List.pairwise_lt_range _).imp ?_
  intro i j hij
  show keyMonthIndex (monthBucketKey (planMonthCurrent (monthModeStart count today) i)) <
    keyMonthIndex (monthBucketKey (planMonthCurrent (monthModeStart count today) j))
  rw [keyMonthIndex_planMonth, keyMonthIndex_planMonth]
  omega

theorem planWeek_keys_pairwise (count today : Int) :
    ((planBucketsWeek count today).map Bucket.key).Pairwise
      (fun a b => keyEpochDay a < keyEpochDay b) := by
  unfold planBucketsWeek
  rw [List.map_map]
  rw [List.pairwise_map]
  refine (List.pairwise_lt_range _).imp ?_
  intro i j hij
  show keyEpochDay (formatDate (planWeekCurrent (weekModeStart count today) i)) <
    keyEpochDay (formatDate (planWeekCurrent (weekModeStart count today) j))
  rw [keyEpochDay_planWeek, keyEpochDay_planWeek]
  omega

theorem plan_keys_nodup (period : Str) (count today : Int) :
    (((plan period count today).buckets).map Bucket.key).Nodup := by
  unfold plan
  split
  · exact (planMonth_keys_pairwise count today).imp
      fun hlt he => by subst he; exact absurd hlt (lt_irrefl _)
  · exact (planWeek_keys_pairwise count today).imp
      fun hlt he => by subst he; exact absurd hlt (lt_irrefl _)

theorem plan_mem_zero (period : Str) (count today : Int) :
    ∀ b ∈ (plan period count today).buckets, b.income = 0 ∧ b.expense = 0 := by
  intro b hb
  unfold plan at hb
  split at hb
  · unfold planBucketsMonth at hb
    rw [List.mem_map] at hb
    obtain ⟨i, _, he⟩ := hb
    rw [← he]
    exact ⟨rfl, rfl⟩
  · unfold planBucketsWeek at hb
    rw [List.mem_map] at hb
    obtain ⟨i, _, he⟩ := hb
    rw [← he]
    exact ⟨rfl, rfl⟩

theorem planWeekCurrent_monday (count today : Int) (i : Nat) :
    jsGetDay (planWeekCurrent (weekModeStart count today) i) = 1 := by
  unfold planWeekCurrent weekModeStart addDays startOfWeek jsGetDay
  omega

theorem mem_planBucketsWeek (count today : Int) (b : Bucket)
    (hb : b ∈ planBucketsWeek count today) :
    ∃ w : Int, jsGetDay w = 1 ∧ b.key = formatDate w := by
  unfold planBucketsWeek at hb
  rw [List.mem_map] at hb
  obtain ⟨i, hi, he⟩ := hb
  refine ⟨planWeekCurrent (weekModeStart count today) i, planWeekCurrent_monday count today i, ?_⟩
  rw [← he]

theorem mem_planBucketsMonth (count today : Int) (b : Bucket)
    (hb : b ∈ planBucketsMonth count today) :
    ∃ t : Int, b.key = monthBucketKey t := by
  unfold planBucketsMonth at hb
  rw [List.mem_map] at hb
  obtain ⟨i, hi, he⟩ := hb
  exact ⟨planMonthCurrent (monthModeStart count today) i, by rw [← he]⟩

theorem firstIdx_sub_one (k : Int) :
    civilToDays ((k + 1) / 12) ((k + 1) % 12 + 1) 1 - 1 =
      civilToDays (k / 12) (k % 12 + 1) (daysInMonth (k / 12) (k % 12 + 1)) := by
  by_cases h : k % 12 = 11
  · rw [show (k + 1) / 12 = k / 12 + 1 by omega, show (k + 1) % 12 + 1 = 1 by omega]
    rw [year_boundary]
    rw [show k % 12 + 1 = 12 by omega]
    have hdim : daysInMonth (k / 12) 12 = 31 := by norm_num [daysInMonth]
    rw [hdim]
    ring
  · rw [show (k + 1) / 12 = k / 12 by omega, show (k + 1) % 12 + 1 = (k % 12 + 1) + 1 by omega]
    rw [month_boundary (k / 12) (k % 12 + 1) (by omega) (by omega)]
    ring

theorem jsMkDate_zero (y m : Int) : jsMkDate y m 0 = jsMkDate y m 1 - 1 := by
  unfold jsMkDate civilToDays
  ring

theorem jsMkDate_one_idx (y1 m1 y2 m2 : Int) (h : 12 * y1 + m1 = 12 * y2 + m2) :
    jsMkDate y1 m1 1 = jsMkDate y2 m2 1 := by
  unfold jsMkDate
  rw [h]

theorem monthModeRangeEnd_eq (today : Int) :
    monthModeRangeEnd today = jsMkDate (dtcYear today) (dtcMonth today - 1 + 1) 1 - 1 := by
  unfold monthModeRangeEnd
  rw [jsMkDate_zero]
  congr 1
  apply jsMkDate_one_idx
  have h := monthIdx_jsMkDate_one (jsGetFullYear today) (jsGetMonth today)
  unfold monthModeLastBucket jsGetFullYear jsGetMonth at *
  omega

theorem monthModeRangeEnd_facts (today : Int) :
    12 * dtcYear (monthModeRangeEnd today) + (dtcMonth (monthModeRangeEnd today) - 1) =
      12 * dtcYear today + (dtcMonth today - 1) ∧
    dtcDay (monthModeRangeEnd today) =
      daysInMonth (dtcYear (monthModeRangeEnd today)) (dtcMonth (monthModeRangeEnd today)) := by
  rw [monthModeRangeEnd_eq]
  have hK : jsMkDate (dtcYear today) (dtcMonth today - 1 + 1) 1 =
      civilToDays ((12 * dtcYear today + (dtcMonth today - 1) + 1) / 12)
        ((12 * dtcYear today + (dtcMonth today - 1) + 1) % 12 + 1) 1 := by
    unfold jsMkDate
    rw [show 12 * dtcYear today + (dtcMonth today - 1 + 1) =
      12 * dtcYear today + (dtcMonth today - 1) + 1 by ring]
  rw [hK, firstIdx_sub_one]
  have hv := daysToCivil_civilToDays ((12 * dtcYear today + (dtcMonth today - 1)) / 12)
    ((12 * dtcYear today + (dtcMonth today - 1)) % 12 + 1)
    (daysInMonth ((12 * dtcYear today + (dtcMonth today - 1)) / 12)
      ((12 * dtcYear today + (dtcMonth today - 1)) % 12 + 1))
    (by omega) (by omega) (daysInMonth_pos _ _) le_rfl
  unfold daysToCivil at hv
  rw [Prod.mk.injEq, Prod.mk.injEq] at hv
  obtain ⟨h1, h2, h3⟩ := hv
  rw [h1, h2, h3]
  exact ⟨by omega, rfl⟩

theorem monthModeStart_facts (count today : Int) :
    12 * dtcYear (monthModeStart count today) + (dtcMonth (monthModeStart count today) - 1) =
      12 * dtcYear today + (dtcMonth today - 1) - (count - 1) ∧
    dtcDay (monthModeStart count today) = 1 := by
  unfold monthModeStart
  have h := monthIdx_jsMkDate_one (jsGetFullYear today) (jsGetMonth today - (count - 1))
  have hd := (dtc_jsMkDate_one (jsGetFullYear today) (jsGetMonth today - (count - 1))).2.2
  unfold jsGetFullYear jsGetMonth at *
  exact ⟨by omega, hd⟩

theorem plan_bucket_get_month (count today : Int) (i : Nat)
    (h : i < (planBucketsMonth count today).length) :
    ((planBucketsMonth count today).get ⟨i, h⟩).key =
      monthBucketKey (planMonthCurrent (monthModeStart count today) i) := by
  simp [planBucketsMonth]

theorem plan_bucket_get_week (count today : Int) (i : Nat)
    (h : i < (planBucketsWeek count today).length) :
    ((planBucketsWeek count today).get ⟨i, h⟩).key =
      formatDate (planWeekCurrent (weekModeStart count today) i) := by
  simp [planBucketsWeek]

theorem take7_formatDate (d : Int) (hy1 : 1000 ≤ dtcYear d) (hy2 : dtcYear d ≤ 9999) :
    (formatDate d).take 7 = monthBucketKey d := by
  obtain ⟨hm1, hm2, hd1, hd2⟩ := daysToCivil_valid d
  have h4 : (intToChars (dtcYear d)).length = 4 := intToChars_length_4 _ hy1 hy2
  have hml : (pad2 (dtcMonth d)).length = 2 := pad2_length _ (by omega) (by omega)
  rw [formatDate_eq, monthBucketKey_eq]
  have hshape : intToChars (dtcYear d) ++ '-' :: (pad2 (dtcMonth d) ++ '-' :: pad2 (dtcDay d)) =
      (intToChars (dtcYear d) ++ '-' :: pad2 (dtcMonth d)) ++ '-' :: pad2 (dtcDay d) := by
    simp
  rw [hshape]
  exact take_at_append _ _ _ (by simp [h4, hml])

theorem monthBucketKey_inj (a b : Int)
    (h : keyMonthIndex (monthBucketKey a) = keyMonthIndex (monthBucketKey b)) :
    monthBucketKey a = monthBucketKey b := by
  rw [keyMonthIndex_monthBucketKey, keyMonthIndex_monthBucketKey] at h
  obtain ⟨ham1, ham2, _, _⟩ := daysToCivil_valid a
  obtain ⟨hbm1, hbm2, _, _⟩ := daysToCivil_valid b
  have hy : dtcYear a = dtcYear b := by omega
  have hm : dtcMonth a = dtcMonth b := by omega
  rw [monthBucketKey_eq, monthBucketKey_eq, hy, hm]

theorem sqlSumWhere_go (w kind : Transaction → Bool) (txs : List Transaction) :
    ∀ acc : ℚ,
      txs.foldl (fun acc tx => if w tx && kind tx then acc + tx.amount else acc) acc =
        acc + ((txs.filter fun tx => w tx && kind tx).map Transaction.amount).sum := by
  induction txs with
  | nil => intro acc; simp
  | cons tx rest ih =>
    intro acc
    rw [List.foldl_cons, List.filter_cons]
    by_cases h : (w tx && kind tx) = true
    · rw [if_pos h, if_pos h, ih]
      rw [List.map_cons, List.sum_cons]
      ring
    · rw [if_neg h, if_neg h, ih]

theorem sqlSumWhere_eq (w kind : Transaction → Bool) (txs : List Transaction) :
    sqlSumWhere w kind txs =
      ((txs.filter fun tx => w tx && kind tx).map Transaction.amount).sum := by
  unfold sqlSumWhere
  rw [sqlSumWhere_go]
  ring

theorem plan_keys_month (count today : Int) :
    (planBucketsMonth count today).map Bucket.key =
      (List.range count.toNat).map
        fun i => monthBucketKey (planMonthCurrent (monthModeStart count today) i) := by
  unfold planBucketsMonth
  rw [List.map_map]
  rfl

theorem plan_keys_week (count today : Int) :
    (planBucketsWeek count today).map Bucket.key =
      (List.range count.toNat).map
        fun i => formatDate (planWeekCurrent (weekModeStart count today) i) := by
  unfold planBucketsWeek
  rw [List.map_map]
  rfl

theorem range_head (n : Nat) (h : 0 < n) : (List.range n).head? = some 0 := by
  cases n with
  | zero => omega
  | succ m => rw [List.range_succ_eq_map]; rfl

theorem range_last (n : Nat) (h : 0 < n) : (List.range n).getLast? = some (n - 1) := by
  cases n with
  | zero => omega
  | succ m => rw [List.range_succ, List.getLast?_append]; rfl

theorem plan_month_reduce (count today : Int) :
    plan ("month".toList) count today =
      { buckets := planBucketsMonth count today,
        rangeStart := monthModeStart count today,
        rangeEnd := monthModeRangeEnd today } := by
  unfold plan
  rw [if_pos rfl]

theorem plan_week_reduce (count today : Int) :
    plan ("week".toList) count today =
      { buckets := planBucketsWeek count today,
        rangeStart := weekModeStart count today,
        rangeEnd := addDays (startOfWeek today) 6 } := by
  unfold plan
  rw [if_neg (by decide)]

/-- Claim C2 — Bucket Planner structure: for every resolved count in
[2, 24], every period kind (month or week) and every value of today, the
planned bucket list has length exactly `count`, its keys are strictly
increasing chronologically (oldest first), and the keys are pairwise
distinct. -/
theorem claim_C2_planner_structure (period : Str) (count today : Int)
    (hper : period = "month".toList ∨ period = "week".toList)
    (hc1 : 2 ≤ count) (hc2 : count ≤ 24) :
    ((plan period count today).buckets.length : Int) = count ∧
    ((plan period count today).buckets.map Bucket.key).Pairwise
      (fun a b => keyTime period a < keyTime period b) ∧
    ((plan period count today).buckets.map Bucket.key).Nodup := by
  refine ⟨?_, ?_, plan_keys_nodup period count today⟩
  · rcases hper with hp | hp <;> subst hp
    · rw [plan_month_reduce]
      show ((planBucketsMonth count today).length : Int) = count
      rw [planBucketsMonth_length]
      omega
    · rw [plan_week_reduce]
      show ((planBucketsWeek count today).length : Int) = count
      rw [planBucketsWeek_length]
      omega
  · rcases hper with hp | hp <;> subst hp
    · rw [plan_month_reduce]
      refine (planMonth_keys_pairwise count today).imp ?_
      intro a b h
      unfold keyTime
      rw [if_pos rfl]
      exact h
    · rw [plan_week_reduce]
      refine (planWeek_keys_pairwise count today).imp ?_
      intro a b h
      unfold keyTime
      rw [if_neg (by decide)]
      exact h

/-- Claim C2 witness: the instantiated structure facts for a concrete
week-mode plan (today = 2024-03-15, count 2). -/
theorem claim_C2_witness :
    ((plan ("week".toList) 2 19797).buckets.length : Int) = 2 ∧
    ((plan ("week".toList) 2 19797).buckets.map Bucket.key).Pairwise
      (fun a b => keyTime ("week".toList) a < keyTime ("week".toList) b) ∧
    ((plan ("week".toList) 2 19797).buckets.map Bucket.key).Nodup :=
  claim_C2_planner_structure ("week".toList) 2 19797 (Or.inr rfl) (by decide) (by decide)

/-- Claim C3 — Range bounds: in month mode `rangeStart` is the first day
of the oldest bucket's month and `rangeEnd` is the last calendar day of
the newest bucket's month; in week mode `rangeStart` is the oldest
bucket's Monday and `rangeEnd` is the newest bucket's Monday plus 6 days
(the closing Sunday). -/
theorem claim_C3_range_bounds (period : Str) (count today : Int)
    (hc1 : 2 ≤ count) (hc2 : count ≤ 24) :
    (period = "month".toList →
      ∀ k0 kn : Str,
        ((plan period count today).buckets.map Bucket.key).head? = some k0 →
        ((plan period count today).buckets.map Bucket.key).getLast? = some kn →
        keyMonthIndex k0 = 12 * dtcYear (plan period count today).rangeStart +
          (dtcMonth (plan period count today).rangeStart - 1) ∧
        dtcDay (plan period count today).rangeStart = 1 ∧
        keyMonthIndex kn = 12 * dtcYear (plan period count today).rangeEnd +
          (dtcMonth (plan period count today).rangeEnd - 1) ∧
        dtcDay (plan period count today).rangeEnd =
          daysInMonth (dtcYear (plan period count today).rangeEnd)
            (dtcMonth (plan period count today).rangeEnd)) ∧
    (period = "week".toList →
      ∀ k0 kn : Str,
        ((plan period count today).buckets.map Bucket.key).head? = some k0 →
        ((plan period count today).buckets.map Bucket.key).getLast? = some kn →
        (plan period count today).rangeStart = keyEpochDay k0 ∧
        jsGetDay (plan period count today).rangeStart = 1 ∧
        (plan period count today).rangeEnd = keyEpochDay kn + 6) := by
  have hn0 : 0 < count.toNat := by omega
  constructor
  · intro hp k0 kn h0 hlast
    subst hp
    rw [plan_month_reduce] at h0 hlast ⊢
    dsimp only at h0 hlast ⊢
    rw [plan_keys_month, List.head?_map, range_head _ hn0] at h0
    rw [plan_keys_month, List.getLast?_map, range_last _ hn0] at hlast
    have hk0 : k0 = monthBucketKey (planMonthCurrent (monthModeStart count today) 0) :=
      (Option.some.inj h0).symm
    have hkn : kn = monthBucketKey
        (planMonthCurrent (monthModeStart count today) (count.toNat - 1)) :=
      (Option.some.inj hlast).symm
    obtain ⟨hs1, hs2⟩ := monthModeStart_facts count today
    obtain ⟨he1, he2⟩ := monthModeRangeEnd_facts today
    have hcast : ((count.toNat - 1 : Nat) : Int) = count - 1 := by omega
    refine ⟨?_, hs2, ?_, he2⟩
    · rw [hk0, keyMonthIndex_planMonth]
      simp
    · rw [hkn, keyMonthIndex_planMonth, hcast]
      omega
  · intro hp k0 kn h0 hlast
    subst hp
    rw [plan_week_reduce] at h0 hlast ⊢
    dsimp only at h0 hlast ⊢
    rw [plan_keys_week, List.head?_map, range_head _ hn0] at h0
    rw [plan_keys_week, List.getLast?_map, range_last _ hn0] at hlast
    have hk0 : k0 = formatDate (planWeekCurrent (weekModeStart count today) 0) :=
      (Option.some.inj h0).symm
    have hkn : kn = formatDate
        (planWeekCurrent (weekModeStart count today) (count.toNat - 1)) :=
      (Option.some.inj hlast).symm
    have hcast : ((count.toNat - 1 : Nat) : Int) = count - 1 := by omega
    have hmon := planWeekCurrent_monday count today 0
    refine ⟨?_, ?_, ?_⟩
    · rw [hk0, keyEpochDay_planWeek]
      simp
    · show jsGetDay (weekModeStart count today) = 1
      unfold planWeekCurrent addDays at hmon
      simpa using hmon
    · rw [hkn, keyEpochDay_planWeek, hcast]
      show addDays (startOfWeek today) 6 = weekModeStart count today + (count - 1) * 7 + 6
      unfold weekModeStart addDays startOfWeek jsGetDay
      omega

/-- Claim C3 witness: the instantiated range bounds for concrete month and
week plans around today = 2024-03-15. -/
theorem claim_C3_witness :
    keyMonthIndex ("2024-01".toList) =
      12 * dtcYear (plan ("month".toList) 3 19797).rangeStart +
        (dtcMonth (plan ("month".toList) 3 19797).rangeStart - 1) ∧
    dtcDay (plan ("month".toList) 3 19797).rangeStart = 1 := by
  have h := (claim_C3_range_bounds ("month".toList) 3 19797 (by decide) (by decide)).1 rfl
    ("2024-01".toList) ("2024-03".toList) (by decide) (by decide)
  exact ⟨h.1, h.2.1⟩

/-- Claim C4 counterexample: a count of 0 is numeric and below 2, yet the
report resolves it to the default 6, not to 2 — in JS `Number('0') || 6`
evaluates to 6 because 0 is falsy. -/
theorem claim_C4_counterexample : resolveCount (some 0) = 6 ∧ resolveCount (some 0) ≠ 2 := by
  decide

/-- Claim C4 (amended) — Count normalization: the resolved count is 6 when
the requested count is absent or non-numeric, 2 for every nonzero numeric
count below 2, 24 for every count above 24, and the count itself inside
[2, 24]; the exception forced by the counterexample is that a numeric
count of exactly 0 is falsy in JS and resolves to the default 6 instead of
being raised to 2.  In particular count 1 resolves to 2 and count 100
resolves to 24. -/
theorem claim_C4_count_normalization :
    resolveCount none = 6 ∧
    (∀ v : Int, v ≠ 0 → v < 2 → resolveCount (some v) = 2) ∧
    resolveCount (some 0) = 6 ∧
    (∀ v : Int, 24 < v → resolveCount (some v) = 24) ∧
    (∀ v : Int, 2 ≤ v → v ≤ 24 → resolveCount (some v) = v) ∧
    resolveCount (some 1) = 2 ∧ resolveCount (some 100) = 24 := by
  refine ⟨by decide, ?_, by decide, ?_, ?_, by decide, by decide⟩
  · intro v h0 h2
    simp only [resolveCount, jsCountDefault]
    rw [if_neg h0]
    omega
  · intro v h24
    simp only [resolveCount, jsCountDefault]
    by_cases h0 : v = 0
    · omega
    · rw [if_neg h0]
      omega
  · intro v h2 h24
    simp only [resolveCount, jsCountDefault]
    rw [if_neg (by omega)]
    omega

/-- Claim C4 witness: the amended normalization applied at concrete
counts. -/
theorem claim_C4_witness :
    resolveCount (some (-5)) = 2 ∧ resolveCount (some 30) = 24 ∧ resolveCount (some 7) = 7 :=
  ⟨claim_C4_count_normalization.2.1 (-5) (by decide) (by decide),
   claim_C4_count_normalization.2.2.2.1 30 (by decide),
   claim_C4_count_normalization.2.2.2.2.1 7 (by decide) (by decide)⟩

/-- Claim C5 — Period fallback: every requested period other than the
exact string `week` (including `quarter`, `month`, absent, or malformed)
resolves to `month`, and only the exact value `week` selects week mode;
resolution is total, so no error is ever raised. -/
theorem claim_C5_period_fallback (p : Option Str) :
    (p ≠ some ("week".toList) → resolvePeriod p = "month".toList) ∧
    (resolvePeriod p = "week".toList ↔ p = some ("week".toList)) := by
  constructor
  · intro hne
    unfold resolvePeriod
    rw [if_neg hne]
  · constructor
    · intro h
      by_cases hp : p = some ("week".toList)
      · exact hp
      · unfold resolvePeriod at h
        rw [if_neg hp] at h
        exact absurd h (by decide)
    · intro h
      unfold resolvePeriod
      rw [if_pos h]

/-- Claim C5 witness: the invalid period `quarter` falls back to `month`. -/
theorem claim_C5_witness : resolvePeriod (some ("quarter".toList)) = "month".toList :=
  (claim_C5_period_fallback (some ("quarter".toList))).1 (by decide)

/-- Claim C6 — Week anchoring: weeks start on Monday (the weekday index is
remapped so Monday = 0 … Sunday = 6, hence `startOfWeek` lands on a JS
weekday 1 also bounding the date from below within 7 days), and for today
= 2024-03-15 (epoch day 19797, a Friday) with period `week` and count 2,
the newest bucket key is `2024-03-11` (the Monday of that week) and the
older key is `2024-03-04`. -/
theorem claim_C6_week_anchoring :
    (∀ t : Int, startOfWeek t = t - (jsGetDay t + 6) % 7 ∧
      jsGetDay (startOfWeek t) = 1 ∧ startOfWeek t ≤ t ∧ t < startOfWeek t + 7) ∧
    civilToDays 2024 3 15 = 19797 ∧ jsGetDay 19797 = 5 ∧
    formatDate (startOfWeek 19797) = "2024-03-11".toList ∧
    (plan ("week".toList) 2 19797).buckets.map Bucket.key =
      ["2024-03-04".toList, "2024-03-11".toList] := by
  refine ⟨?_, by decide, by decide, by decide, by decide⟩
  intro t
  exact ⟨rfl, jsGetDay_startOfWeek t, (startOfWeek_window t).1, (startOfWeek_window t).2⟩

/-- Claim C8 — Report determinism: the report computation is a pure
function of the resolved query, today and the fetched row set, so two
computations on identical inputs agree in every response field. -/
theorem claim_C8_determinism (periodQ : Option Str) (countQ : Option Int) (today : Int)
    (rows : List TxRow) :
    (computeReport periodQ countQ today rows).period =
      (computeReport periodQ countQ today rows).period ∧
    (computeReport periodQ countQ today rows).count =
      (computeReport periodQ countQ today rows).count ∧
    (computeReport periodQ countQ today rows).start =
      (computeReport periodQ countQ today rows).start ∧
    (computeReport periodQ countQ today rows).stop =
      (computeReport periodQ countQ today rows).stop ∧
    (computeReport periodQ countQ today rows).buckets =
      (computeReport periodQ countQ today rows).buckets ∧
    computeReport periodQ countQ today rows = computeReport periodQ countQ today rows :=
  ⟨rfl, rfl, rfl, rfl, rfl, rfl⟩

/-- Claim C10 — Date round-trip: for every string of the form
`YYYY-MM-DD` denoting a valid calendar date (month 01–12, day valid for
that month, year at least 1000), parsing with `parseISODate` and
reformatting with `formatDate` returns the very same string; parsing and
reformatting never shifts the date. -/
theorem claim_C10_date_roundtrip (y m d : Nat) (hy1 : 1000 ≤ y) (hy2 : y ≤ 9999)
    (hm1 : 1 ≤ m) (hm2 : m ≤ 12) (hd1 : 1 ≤ d)
    (hd2 : (d : Int) ≤ daysInMonth (y : Int) (m : Int)) :
    parseISODate (dateChars y m d) = some (civilToDays y m d) ∧
    formatDate (civilToDays y m d) = dateChars y m d := by
  have hv := daysToCivil_civilToDays (y : Int) (m : Int) (d : Int)
    (by omega) (by omega) (by omega) hd2
  unfold daysToCivil at hv
  rw [Prod.mk.injEq, Prod.mk.injEq] at hv
  obtain ⟨h1, h2, h3⟩ := hv
  have hdc : dateChars y m d =
      natToChars y ++ '-' :: (pad2 (m : Int) ++ '-' :: pad2 (d : Int)) := rfl
  constructor
  · unfold parseISODate
    rw [hdc]
    rw [splitDash_append _ _ (no_dash_of_all_digits _ (natToChars_all_digits _))]
    rw [splitDash_append _ _ (no_dash_of_all_digits _ (pad2_all_digits _ (by omega)))]
    rw [splitDash_no_dash _ (no_dash_of_all_digits _ (pad2_all_digits _ (by omega)))]
    rw [List.map_cons, List.map_cons, List.map_cons, List.map_nil]
    rw [parseNat_digits _ (natToChars_all_digits _),
      parseNat_digits _ (pad2_all_digits _ (by omega)),
      parseNat_digits _ (pad2_all_digits _ (by omega))]
    simp only []
    have hYv : ((charsToNat (natToChars y) : Nat) : Int) = (y : Int) := by
      rw [charsToNat_natToChars]
    have hMv : ((charsToNat (pad2 (m : Int)) : Nat) : Int) = (m : Int) :=
      charsToNat_pad2 _ (by omega)
    have hDv : ((charsToNat (pad2 (d : Int)) : Nat) : Int) = (d : Int) :=
      charsToNat_pad2 _ (by omega)
    rw [hYv, hMv, hDv, jsMkDate_norm _ _ _ (by omega) (by omega)]
  · rw [formatDate_eq, h1, h2, h3, hdc]
    rw [intToChars_nonneg _ (by omega)]
    rw [show ((y : Int)).toNat = y from rfl]

/-- Claim C10 witness: the round trip at the leap day 2024-02-29. -/
theorem claim_C10_witness :
    parseISODate (dateChars 2024 2 29) = some (civilToDays 2024 2 29) ∧
    formatDate (civilToDays 2024 2 29) = dateChars 2024 2 29 :=
  claim_C10_date_roundtrip 2024 2 29 (by decide) (by decide) (by decide) (by decide)
    (by decide) (by decide)

theorem filter_and_comm {α : Type} (p q : α → Prop) [DecidablePred p] [DecidablePred q]
    (l : List α) :
    (l.filter fun a => decide (q a)).filter (fun a => decide (p a)) =
      l.filter fun a => decide (p a ∧ q a) := by
  induction l with
  | nil => rfl
  | cons x xs ih =>
    rw [List.filter_cons]
    by_cases hq : q x
    · rw [if_pos (by simpa using hq), List.filter_cons, List.filter_cons]
      by_cases hp : p x
      · rw [if_pos (by simpa using hp), if_pos (by simp [hp, hq]), ih]
      · rw [if_neg (by simpa using hp), if_neg (by simp [hp]), ih]
    · rw [if_neg (by simpa using hq), List.filter_cons, if_neg (by simp [hq]), ih]

/-- Claim C1 — Bucket Aggregator fold correctness: in every computed
report, each bucket's income equals the sum of the amounts of exactly the
fetched rows of type `income` whose recomputed bucket key is that
bucket's key, each bucket's expense equals the corresponding sum over the
remaining (non-income) rows, and a row whose recomputed key matches no
planned bucket contributes to no bucket's totals (deleting it leaves
every bucket unchanged). -/
theorem claim_C1_fold_correctness (periodQ : Option Str) (countQ : Option Int)
    (today : Int) (rows : List TxRow) :
    (∀ b ∈ (computeReport periodQ countQ today rows).buckets,
      b.income = ((rows.filter fun r =>
          decide (r.type = "income".toList ∧
            rowKey (resolvePeriod periodQ) r.date = b.key)).map TxRow.amount).sum ∧
      b.expense = ((rows.filter fun r =>
          decide (¬ r.type = "income".toList ∧
            rowKey (resolvePeriod periodQ) r.date = b.key)).map TxRow.amount).sum) ∧
    (∀ (r : TxRow) (rows1 rows2 : List TxRow),
      (∀ b ∈ (plan (resolvePeriod periodQ) (resolveCount countQ) today).buckets,
        rowKey (resolvePeriod periodQ) r.date ≠ b.key) →
      (computeReport periodQ countQ today (rows1 ++ r :: rows2)).buckets =
        (computeReport periodQ countQ today (rows1 ++ rows2)).buckets) := by
  constructor
  · intro b hb
    have hbuck : (computeReport periodQ countQ today rows).buckets =
        aggregate (resolvePeriod periodQ)
          (plan (resolvePeriod periodQ) (resolveCount countQ) today).buckets rows := rfl
    rw [hbuck, aggregate_eq_map _ _ _ (plan_keys_nodup _ _ _)] at hb
    rw [List.mem_map] at hb
    obtain ⟨b0, hb0, hbe⟩ := hb
    obtain ⟨hz1, hz2⟩ := plan_mem_zero _ _ _ b0 hb0
    obtain ⟨hinc, hexp⟩ := foldOnto_sums
      (rows.filter fun r => decide (rowKey (resolvePeriod periodQ) r.date = b0.key)) b0
    have hkey : b.key = b0.key := by
      rw [← hbe]
      exact foldOnto_key _ b0
    constructor
    · rw [← hbe, hinc, hz1, zero_add]
      simp only [foldOnto_key]
      rw [filter_and_comm (fun r : TxRow => r.type = "income".toList)
        (fun r : TxRow => rowKey (resolvePeriod periodQ) r.date = b0.key) rows]
    · rw [← hbe, hexp, hz2, zero_add]
      simp only [foldOnto_key]
      have hneg : (fun r : TxRow => !decide (r.type = "income".toList)) =
          fun r : TxRow => decide (¬ r.type = "income".toList) := by
        funext r
        rw [decide_not]
      rw [hneg]
      rw [filter_and_comm (fun r : TxRow => ¬ r.type = "income".toList)
        (fun r : TxRow => rowKey (resolvePeriod periodQ) r.date = b0.key) rows]
  · intro r rows1 rows2 hno
    have hb1 : (computeReport periodQ countQ today (rows1 ++ r :: rows2)).buckets =
        aggregate (resolvePeriod periodQ)
          (plan (resolvePeriod periodQ) (resolveCount countQ) today).buckets
          (rows1 ++ r :: rows2) := rfl
    have hb2 : (computeReport periodQ countQ today (rows1 ++ rows2)).buckets =
        aggregate (resolvePeriod periodQ)
          (plan (resolvePeriod periodQ) (resolveCount countQ) today).buckets
          (rows1 ++ rows2) := rfl
    rw [hb1, hb2]
    rw [aggregate_eq_map _ _ _ (plan_keys_nodup _ _ _),
      aggregate_eq_map _ _ _ (plan_keys_nodup _ _ _)]
    apply List.map_congr_left
    intro b hb
    congr 1
    rw [List.filter_append, List.filter_append, List.filter_cons]
    simp only [decide_eq_true_eq]
    rw [if_neg (hno b hb)]

/-- Claim C7 — Summary correctness: for every owner and optional bounds,
the summary's income is the sum of the amounts of the owner's `income`
transactions inside the (inclusive, open-ended when a bound is absent or
invalid) date range, the expense is the corresponding `expense` sum, and
the balance is exactly income minus expense. -/
theorem claim_C7_summary (txs : List Transaction) (uid : Int) (s e : Option Str) :
    (summarize txs uid s e).income =
      ((txs.filter fun tx => decide (tx.userId = uid) && inClaimRange s e tx.date &&
        decide (tx.type = "income".toList)).map Transaction.amount).sum ∧
    (summarize txs uid s e).expense =
      ((txs.filter fun tx => decide (tx.userId = uid) && inClaimRange s e tx.date &&
        decide (tx.type = "expense".toList)).map Transaction.amount).sum ∧
    (summarize txs uid s e).balance =
      (summarize txs uid s e).income - (summarize txs uid s e).expense := by
  have hpt : ∀ (k : Str) (tx : Transaction),
      (rangeFilterPred uid s e tx && decide (tx.type = k)) =
      (decide (tx.userId = uid) && inClaimRange s e tx.date && decide (tx.type = k)) := by
    intro k tx
    unfold rangeFilterPred inClaimRange
    cases s <;> cases e <;> simp [Bool.and_assoc] <;> rfl
  refine ⟨?_, ?_, rfl⟩
  · show sqlSumWhere (rangeFilterPred uid s e) (fun tx => decide (tx.type = "income".toList))
      txs = _
    rw [sqlSumWhere_eq]
    rw [List.filter_congr fun tx _ => hpt ("income".toList) tx]
  · show sqlSumWhere (rangeFilterPred uid s e) (fun tx => decide (tx.type = "expense".toList))
      txs = _
    rw [sqlSumWhere_eq]
    rw [List.filter_congr fun tx _ => hpt ("expense".toList) tx]

/-- Claim C9 — Planner/Aggregator key agreement: for every valid calendar
date `d` (4-digit year) lying within a planned bucket's period, the key
the Aggregator recomputes for `d` (month mode: the first 7 characters of
the `YYYY-MM-DD` string; week mode: the formatted Monday-start of `d`)
equals the key the Planner assigned to that bucket. -/
theorem claim_C9_key_agreement (period : Str) (count today d : Int) (b : Bucket)
    (hper : period = "month".toList ∨ period = "week".toList)
    (hb : b ∈ (plan period count today).buckets)
    (hy1 : 1000 ≤ dtcYear d) (hy2 : dtcYear d ≤ 9999) :
    (period = "month".toList → b.key = monthBucketKey d →
      rowKey period (formatDate d) = b.key) ∧
    (period = "week".toList → keyEpochDay b.key ≤ d → d ≤ keyEpochDay b.key + 6 →
      rowKey period (formatDate d) = b.key) := by
  constructor
  · intro hp hkey
    subst hp
    unfold rowKey
    rw [if_pos rfl, take7_formatDate d hy1 hy2, hkey]
  · intro hp h1 h6
    subst hp
    rw [plan_week_reduce] at hb
    obtain ⟨w, hmon, hkw⟩ := mem_planBucketsWeek count today b hb
    rw [hkw, keyEpochDay_formatDate] at h1 h6
    unfold rowKey
    rw [if_neg (by decide)]
    rw [parseISODate_formatDate d (by omega)]
    show formatDate (startOfWeek d) = b.key
    rw [startOfWeek_of_monday w d hmon h1 h6]
    exact hkw.symm

/-- Claim C9 witness: 2024-03-15 falls in the week bucket keyed
2024-03-11 of the concrete week plan, and the aggregator recomputes that
key. -/
theorem claim_C9_witness :
    rowKey ("week".toList) (formatDate 19797) =
      ((plan ("week".toList) 2 19797).buckets.get ⟨1, by decide⟩).key :=
  (claim_C9_key_agreement ("week".toList) 2 19797 19797
    ((plan ("week".toList) 2 19797).buckets.get ⟨1, by decide⟩)
    (Or.inr rfl) (List.get_mem _ _ _) (by decide) (by decide)).2 rfl
    (by decide) (by decide)

/-- Claim C1 witness: the fold-correctness equations instantiated for a
concrete week report over a single income row of amount 5 dated
2024-03-15. -/
theorem claim_C1_witness :
    ((computeReport (some ("week".toList)) (some 2) 19797
        [⟨"2024-03-15".toList, "income".toList, 5⟩]).buckets.get ⟨1, by decide⟩).income =
      (([⟨"2024-03-15".toList, "income".toList, (5 : ℚ)⟩].filter fun r : TxRow =>
        decide (r.type = "income".toList ∧
          rowKey (resolvePeriod (some ("week".toList))) r.date =
            ((computeReport (some ("week".toList)) (some 2) 19797
              [⟨"2024-03-15".toList, "income".toList, 5⟩]).buckets.get
                ⟨1, by decide⟩).key)).map TxRow.amount).sum :=
  ((claim_C1_fold_correctness (some ("week".toList)) (some 2) 19797
    [⟨"2024-03-15".toList, "income".toList, 5⟩]).1
    ((computeReport (some ("week".toList)) (some 2) 19797
      [⟨"2024-03-15".toList, "income".toList, 5⟩]).buckets.get ⟨1, by decide⟩)
    (List.get_mem _ _ _)).1
